import Mathlib

/-!
# Exec session registry (`internal/server/singleprocess/state/instance_exec.go`)

A shallow embedding of the exec session registry: the `instance-execs` table of the
in-memory store, the package-level id counter, and the three operations
`InstanceExecCreateByDeployment`, `InstanceExecDelete` and `instanceExecListByInstanceId`.

Modelling conventions.

* A table of the store is the list of its rows. The store iterates an index in key order;
  the list order stands for that order, and the statements below are about membership,
  multiplicity and length, or hold for whichever order the list has.
* Strings are Go strings that are valid UTF-8. An index lookup on a `StringFieldIndex` with
  `Lowercase: true` seeks the iterator to the key of the argument (the lower-cased string
  and a NUL byte) and returns the rows whose key (the lower-cased field, a NUL byte, the
  bytes of the primary key) starts with it. The rune table of `unicode.ToLower` and the
  byte encoding of an `int64` key are parameters of the model (`Indexers`); the examples
  are evaluated with a table for ASCII and Latin-1 and the big-endian encoding.
* `Insert` on a table replaces the row that has the same primary key (`Id`), if there is one.
* The store is healthy: the tables and indexes named by the schema exist and identifiers are
  not empty, so `Get`, `Insert` and `DeleteAll` report no error. The `Aborted` branches of
  the source are kept in the definitions, fed by store operations that return `Except.ok`.
* `int64` values are integers wrapped into `[-2^63, 2^63)` where the source does arithmetic
  on them (`atomic.AddInt64`).
* `exec *InstanceExec` is passed by value and handed back in the result; every call gets a
  template of its own (no aliasing with a row already in the table).
* `Reader` and `EventCh` are opaque handles, represented by numbers.
-/

namespace Waypoint

/-- The two gRPC status codes the registry returns. -/
inductive Code where
  | Aborted
  | ResourceExhausted
  deriving DecidableEq, Repr

/-- A gRPC status error: `status.Errorf(code, message)`. -/
structure Status where
  code : Code
  message : String
  deriving DecidableEq, Repr

/-- Modelled from the spec: the `Instance` record of the Instance Directory (its declaration
is not part of this file of the repository): an instance identifier and the deployment the
instance belongs to. -/
structure Instance where
  Id : String
  DeploymentId : String
  deriving DecidableEq, Repr

/-- The `InstanceExec` record (source lines 52-59). -/
structure InstanceExec where
  Id : Int
  InstanceId : String
  Args : List String
  Reader : Nat
  EventCh : Nat
  Connected : Nat
  deriving DecidableEq, Repr

/-- The shared state: the `instances` table, the `instance-execs` table and the package-level
counter `instanceExecId`. -/
structure State where
  instances : List Instance
  execs : List InstanceExec
  instanceExecId : Int
  deriving DecidableEq, Repr

/-- Two's complement wrap of an integer into the `int64` range. -/
def wrapInt64 (x : Int) : Int :=
  (x + 9223372036854775808) % 18446744073709551616 - 9223372036854775808

/-- The two tables of the Go libraries that the schema's indexers rest on and that are no
part of this repository, taken as parameters: `unicode.ToLower` on runes (code points) and
the bytes under which `IntFieldIndex` files an `int64`. -/
structure Indexers where
  toLowerRune : Nat → Nat
  encodeInt : Int → List Nat

/-- The UTF-8 encoding of a code point: the bytes of a rune in a Go string. -/
def utf8Encode (n : Nat) : List Nat :=
  if n < 128 then [n]
  else if n < 2048 then [192 + n / 64, 128 + n % 64]
  else if n < 65536 then [224 + n / 4096, 128 + n / 64 % 64, 128 + n % 64]
  else [240 + n / 262144, 128 + n / 4096 % 64, 128 + n / 64 % 64, 128 + n % 64]

/-- The Go string `strings.ToLower(s)`, as its bytes: every rune of `s` is mapped by
`unicode.ToLower` and encoded. -/
def toLower (ix : Indexers) (s : String) : List Nat :=
  (s.data.map (fun c => ix.toLowerRune c.toNat)).flatMap utf8Encode

/-- The key `StringFieldIndex` with `Lowercase: true` computes from a string, as a lookup
argument (`FromArgs`) and as a field value (`FromObject`): the lower-cased string followed
by a NUL byte. -/
def stringIndexKey (ix : Indexers) (s : String) : List Nat :=
  toLower ix s ++ [0]

/-- The key of a row in the non-unique `InstanceId` index: the key of the field followed by
the primary key of the row, the bytes of its `Id`. -/
def execInstanceIdKey (ix : Indexers) (e : InstanceExec) : List Nat :=
  stringIndexKey ix e.InstanceId ++ ix.encodeInt e.Id

/-- Whether the index iterator seeked to the key of `id` yields the row `e`: the key of `id`
is an initial segment of the key of `e`. -/
def seekMatches (ix : Indexers) (id : String) (e : InstanceExec) : Bool :=
  (stringIndexKey ix id).isPrefixOf (execInstanceIdKey ix e)

/-- A rune table for identifiers in ASCII and Latin-1: `A`-`Z` and `À`-`Þ` (without `×`) go
to the letter 32 code points up, every other code point to itself. -/
def foldLatin1 (n : Nat) : Nat :=
  if (65 ≤ n ∧ n ≤ 90) ∨ (192 ≤ n ∧ n ≤ 222 ∧ n ≠ 215) then n + 32 else n

/-- The eight big-endian bytes of an `int64` with its sign bit flipped. -/
def encodeInt64 (x : Int) : List Nat :=
  (List.range 8).map
    (fun i => ((x + 9223372036854775808) % 18446744073709551616).toNat / 256 ^ (7 - i) % 256)

/-- The indexers the examples are evaluated with. -/
def latin1Indexers : Indexers :=
  ⟨foldLatin1, encodeInt64⟩

/-- Modelled from the spec: the instances of the Instance Directory that belong to deployment
`did`, in the order the directory enumerates them (the schema of the `instances` table is not
part of this file of the repository). -/
def instancesOf (s : State) (did : String) : List Instance :=
  s.instances.filter (fun r => r.DeploymentId == did)

/-- The lookup `txn.Get(instanceTableName, instanceDeploymentIdIndexName, did)`: the Instance
Directory query "list instances for deployment X". -/
def txnGetInstancesByDeployment (s : State) (did : String) : Except String (List Instance) :=
  .ok (instancesOf s did)

/-- The lookup `txn.Get(instanceExecTableName, instanceExecInstanceIdIndexName, id)`: the index
is a non-unique `StringFieldIndex` on `InstanceId` with `Lowercase: true`, and the iterator
is seeked to the key of `id`. -/
def txnGetExecsByInstanceId (ix : Indexers) (s : State) (id : String) :
    Except String (List InstanceExec) :=
  .ok (s.execs.filter (fun e => seekMatches ix id e))

/-- The write `txn.Insert(instanceExecTableName, exec)`: the `id` index is unique, so a row
with the same `Id` is replaced. -/
def txnInsertExec (s : State) (exec : InstanceExec) : Except String (List InstanceExec) :=
  .ok (s.execs.filter (fun r => r.Id != exec.Id) ++ [exec])

/-- The write `txn.DeleteAll(instanceExecTableName, instanceExecIdIndexName, id)`: the number
of rows removed and the remaining rows. -/
def txnDeleteAllExecsById (s : State) (id : Int) : Except String (Nat × List InstanceExec) :=
  .ok ((s.execs.filter (fun r => r.Id == id)).length, s.execs.filter (fun r => r.Id != id))

/-- The loop of `instanceExecListByInstanceId` (source lines 135-138): every row of the
iterator is appended to `result`. -/
def collectExecs : List InstanceExec → List InstanceExec → List InstanceExec
  | [], result => result
  | raw :: iter, result => collectExecs iter (result ++ [raw])

/-- The function `instanceExecListByInstanceId` (source lines 128-141). -/
def instanceExecListByInstanceId (ix : Indexers) (s : State) (id : String) :
    Except Status (List InstanceExec) :=
  match txnGetExecsByInstanceId ix s id with
  | .error err => .error ⟨Code.Aborted, err⟩
  | .ok iter => .ok (collectExecs iter [])

/-- The placement loop of `InstanceExecCreateByDeployment` (source lines 73-95), run over the
rows still to come from the iterator, with the loop variables `min` and `minCount`. -/
def leastLoaded (ix : Indexers) (s : State) :
    List Instance → Option Instance → Nat → Except Status (Option Instance)
  | [], min, _ => .ok min
  | rec :: iter, min, minCount =>
    match instanceExecListByInstanceId ix s rec.Id with
    | .error err => .error err
    | .ok execs =>
      if execs.length = 0 then .ok (some rec)
      else if min.isNone || execs.length < minCount then
        leastLoaded ix s iter (some rec) execs.length
      else leastLoaded ix s iter min minCount

/-- What a call of `InstanceExecCreateByDeployment` leaves behind: the state, the caller's
`exec` record and the returned error (`none` for `nil`). -/
structure CreateResult where
  state : State
  exec : InstanceExec
  err : Option Status
  deriving DecidableEq, Repr

/-- The function `InstanceExecCreateByDeployment` (source lines 61-115). An error return leaves
the tables as they were (`defer txn.Abort()`). -/
def InstanceExecCreateByDeployment (ix : Indexers) (s : State) (did : String)
    (exec : InstanceExec) :
    CreateResult :=
  match txnGetInstancesByDeployment s did with
  | .error err => ⟨s, exec, some ⟨Code.Aborted, err⟩⟩
  | .ok iter =>
    match leastLoaded ix s iter none 0 with
    | .error err => ⟨s, exec, some err⟩
    | .ok none => ⟨s, exec, some ⟨Code.ResourceExhausted, "No available instances for exec."⟩⟩
    | .ok (some min) =>
      let exec1 := { exec with InstanceId := min.Id }
      let counter := wrapInt64 (s.instanceExecId + 1)
      let exec2 := { exec1 with Id := counter }
      match txnInsertExec s exec2 with
      | .error err => ⟨{ s with instanceExecId := counter }, exec2, some ⟨Code.Aborted, err⟩⟩
      | .ok execs => ⟨{ s with execs := execs, instanceExecId := counter }, exec2, none⟩

/-- The function `InstanceExecDelete` (source lines 117-126): the state afterwards and the
returned error. -/
def InstanceExecDelete (s : State) (id : Int) : State × Option Status :=
  match txnDeleteAllExecsById s id with
  | .error err => (s, some ⟨Code.Aborted, err⟩)
  | .ok (_, execs) => ({ s with execs := execs }, none)

/-- The number of exec sessions bound to the instance `id`: the length of its listing. -/
def sessionCount (ix : Indexers) (s : State) (id : String) : Nat :=
  match instanceExecListByInstanceId ix s id with
  | .error _ => 0
  | .ok execs => execs.length

/-- The record a successful create stores: the template with `InstanceId` and `Id` set. -/
def boundExec (s : State) (exec : InstanceExec) (min : Instance) : InstanceExec :=
  { exec with InstanceId := min.Id, Id := wrapInt64 (s.instanceExecId + 1) }

/-- A call to the registry: a create or a delete. -/
inductive Op where
  | create (did : String) (exec : InstanceExec)
  | delete (id : Int)
  deriving DecidableEq, Repr

/-- One call: the state it leaves and, for a create that returned no error, the `Id` it
assigned. -/
def stepOp (ix : Indexers) (s : State) : Op → State × Option Int
  | .create did exec =>
    match (InstanceExecCreateByDeployment ix s did exec).err with
    | none => ((InstanceExecCreateByDeployment ix s did exec).state,
        some (InstanceExecCreateByDeployment ix s did exec).exec.Id)
    | some _ => ((InstanceExecCreateByDeployment ix s did exec).state, none)
  | .delete id => ((InstanceExecDelete s id).1, none)

/-- A sequence of calls run one after another: the final state and the ids assigned by the
successful creates, in call order. -/
def runOps (ix : Indexers) : State → List Op → State × List Int
  | s, [] => (s, [])
  | s, op :: ops =>
    ((runOps ix (stepOp ix s op).1 ops).1,
      (stepOp ix s op).2.toList ++ (runOps ix (stepOp ix s op).1 ops).2)

/-! ## The listing and the session count -/

theorem collectExecs_eq (iter result : List InstanceExec) :
    collectExecs iter result = result ++ iter := by
  induction iter generalizing result with
  | nil => simp [collectExecs]
  | cons raw iter ih => simp [collectExecs, ih]

theorem instanceExecListByInstanceId_eq (ix : Indexers) (s : State) (id : String) :
    instanceExecListByInstanceId ix s id
      = .ok (s.execs.filter (fun e => seekMatches ix id e)) := by
  simp [instanceExecListByInstanceId, txnGetExecsByInstanceId, collectExecs_eq]

theorem sessionCount_eq (ix : Indexers) (s : State) (id : String) :
    sessionCount ix s id
      = (s.execs.filter (fun e => seekMatches ix id e)).length := by
  simp [sessionCount, instanceExecListByInstanceId_eq]

/-! ## The index seek -/

theorem isPrefixOf_append_self (l r : List Nat) : l.isPrefixOf (l ++ r) = true := by
  induction l with
  | nil => simp [List.isPrefixOf]
  | cons a l ih => simp [List.isPrefixOf, ih]

/-- A row is found under the identifier it is bound to. -/
theorem seekMatches_self (ix : Indexers) (e : InstanceExec) :
    seekMatches ix e.InstanceId e = true := by
  unfold seekMatches execInstanceIdKey
  exact isPrefixOf_append_self _ _

/-- Identifiers with the same lower-casing are one key. -/
theorem seekMatches_congr (ix : Indexers) (x y : String) (e : InstanceExec)
    (h : toLower ix x = toLower ix y) : seekMatches ix x e = seekMatches ix y e := by
  simp only [seekMatches, stringIndexKey, h]

/-- Two byte strings without a NUL byte, each closed by a NUL byte: when the first is an
initial segment of the second followed by anything, they are equal. -/
theorem eq_of_nul_terminated (la : List Nat) : ∀ (lb rest : List Nat), 0 ∉ la → 0 ∉ lb →
    (la ++ [0]).isPrefixOf (lb ++ 0 :: rest) = true → la = lb := by
  induction la with
  | nil =>
    intro lb rest _ hb h
    cases lb with
    | nil => rfl
    | cons b lb =>
      simp only [List.nil_append, List.cons_append, List.isPrefixOf, Bool.and_eq_true,
        beq_iff_eq] at h
      exact absurd (by simp [← h.1]) hb
  | cons a la ih =>
    intro lb rest ha hb h
    cases lb with
    | nil =>
      simp only [List.nil_append, List.cons_append, List.isPrefixOf, Bool.and_eq_true,
        beq_iff_eq] at h
      exact absurd (by simp [h.1]) ha
    | cons b lb =>
      simp only [List.cons_append, List.isPrefixOf, Bool.and_eq_true, beq_iff_eq] at h
      rw [h.1, ih lb rest (fun hm => ha (by simp [hm])) (fun hm => hb (by simp [hm])) h.2]

/-- For identifiers whose lower-cased bytes hold no NUL byte, the seek finds a row exactly
when the row is bound to an identifier with the same lower-casing. -/
theorem seekMatches_iff (ix : Indexers) (x : String) (e : InstanceExec)
    (hx : 0 ∉ toLower ix x) (he : 0 ∉ toLower ix e.InstanceId) :
    seekMatches ix x e = true ↔ toLower ix e.InstanceId = toLower ix x := by
  constructor
  · intro h
    unfold seekMatches execInstanceIdKey stringIndexKey at h
    rw [List.append_assoc, List.singleton_append] at h
    exact (eq_of_nul_terminated _ _ _ hx he h).symm
  · intro h
    rw [seekMatches_congr ix x e.InstanceId e h.symm]
    exact seekMatches_self ix e

/-! ## The placement loop -/

theorem leastLoaded_cons (ix : Indexers) (s : State) (r : Instance) (iter : List Instance)
    (min : Option Instance) (minCount : Nat) :
    leastLoaded ix s (r :: iter) min minCount
      = if sessionCount ix s r.Id = 0 then .ok (some r)
        else if min.isNone || sessionCount ix s r.Id < minCount then
          leastLoaded ix s iter (some r) (sessionCount ix s r.Id)
        else leastLoaded ix s iter min minCount := by
  simp only [leastLoaded, sessionCount, instanceExecListByInstanceId_eq]

/-- With a candidate `m` in hand, the loop ends on `m` or on a later row, and the row it ends
on has the fewest sessions of all of them. -/
theorem leastLoaded_some (ix : Indexers) (s : State) (iter : List Instance) (m : Instance) :
    ∃ r, leastLoaded ix s iter (some m) (sessionCount ix s m.Id) = .ok (some r)
      ∧ (r = m ∨ r ∈ iter)
      ∧ sessionCount ix s r.Id ≤ sessionCount ix s m.Id
      ∧ ∀ r' ∈ iter, sessionCount ix s r.Id ≤ sessionCount ix s r'.Id := by
  induction iter generalizing m with
  | nil => exact ⟨m, by simp [leastLoaded]⟩
  | cons x rest ih =>
    rw [leastLoaded_cons]
    by_cases h0 : sessionCount ix s x.Id = 0
    · refine ⟨x, by simp [h0], by simp, by omega, ?_⟩
      intro r' _
      omega
    · by_cases hlt : sessionCount ix s x.Id < sessionCount ix s m.Id
      · obtain ⟨r, hr, hmem, hle, hall⟩ := ih x
        refine ⟨r, by simp [h0, hlt, hr], ?_, by omega, ?_⟩
        · rcases hmem with h | h
          · exact Or.inr (by simp [h])
          · exact Or.inr (by simp [h])
        · intro r' hr'
          rcases List.mem_cons.mp hr' with h | h
          · subst h; exact hle
          · exact hall r' h
      · obtain ⟨r, hr, hmem, hle, hall⟩ := ih m
        refine ⟨r, by simp [h0, hlt, hr], ?_, hle, ?_⟩
        · rcases hmem with h | h
          · exact Or.inl h
          · exact Or.inr (by simp [h])
        · intro r' hr'
          rcases List.mem_cons.mp hr' with h | h
          · subst h; omega
          · exact hall r' h

/-- Started as the source starts it (`min = nil`, `minCount = 0`) on a non-empty enumeration,
the loop ends on a row of the enumeration that has the fewest sessions. -/
theorem leastLoaded_init (ix : Indexers) (s : State) (iter : List Instance) (hne : iter ≠ []) :
    ∃ r ∈ iter, leastLoaded ix s iter none 0 = .ok (some r)
      ∧ ∀ r' ∈ iter, sessionCount ix s r.Id ≤ sessionCount ix s r'.Id := by
  cases iter with
  | nil => exact absurd rfl hne
  | cons x rest =>
    rw [leastLoaded_cons]
    by_cases h0 : sessionCount ix s x.Id = 0
    · refine ⟨x, by simp, by simp [h0], ?_⟩
      intro r' _
      omega
    · obtain ⟨r, hr, hmem, hle, hall⟩ := leastLoaded_some ix s rest x
      refine ⟨r, ?_, by simp [h0, hr], ?_⟩
      · rcases hmem with h | h
        · simp [h]
        · simp [h]
      · intro r' hr'
        rcases List.mem_cons.mp hr' with h | h
        · subst h; exact hle
        · exact hall r' h

theorem leastLoaded_nil (ix : Indexers) (s : State) : leastLoaded ix s [] none 0 = .ok none := rfl

/-! ## The two outcomes of a create -/

theorem create_of_some (ix : Indexers) (s : State) (did : String) (exec : InstanceExec) (m : Instance)
    (h : leastLoaded ix s (instancesOf s did) none 0 = .ok (some m)) :
    InstanceExecCreateByDeployment ix s did exec
      = ⟨{ s with
            execs := s.execs.filter (fun r => r.Id != wrapInt64 (s.instanceExecId + 1))
              ++ [boundExec s exec m]
            instanceExecId := wrapInt64 (s.instanceExecId + 1) },
          boundExec s exec m, none⟩ := by
  simp [InstanceExecCreateByDeployment, txnGetInstancesByDeployment, h, txnInsertExec,
    boundExec]

theorem create_of_nil (ix : Indexers) (s : State) (did : String) (exec : InstanceExec)
    (h : instancesOf s did = []) :
    InstanceExecCreateByDeployment ix s did exec
      = ⟨s, exec, some ⟨Code.ResourceExhausted, "No available instances for exec."⟩⟩ := by
  simp [InstanceExecCreateByDeployment, txnGetInstancesByDeployment, h, leastLoaded]

/-- A create on a deployment with an instance succeeds, on a least-loaded instance. -/
theorem create_of_ne_nil (ix : Indexers) (s : State) (did : String) (exec : InstanceExec)
    (hne : instancesOf s did ≠ []) :
    ∃ m ∈ instancesOf s did,
      (∀ r' ∈ instancesOf s did, sessionCount ix s m.Id ≤ sessionCount ix s r'.Id)
      ∧ InstanceExecCreateByDeployment ix s did exec
        = ⟨{ s with
              execs := s.execs.filter (fun r => r.Id != wrapInt64 (s.instanceExecId + 1))
                ++ [boundExec s exec m]
              instanceExecId := wrapInt64 (s.instanceExecId + 1) },
            boundExec s exec m, none⟩ := by
  obtain ⟨m, hm, hrun, hmin⟩ := leastLoaded_init ix s (instancesOf s did) hne
  exact ⟨m, hm, hmin, create_of_some ix s did exec m hrun⟩

/-! ## Placement (C1, C2) -/

/-- C3: against a deployment with zero instances the create returns a `ResourceExhausted`
error and creates no record: the rows of the `instance-execs` table, and so their number, are
the same after the call as before. -/
theorem create_no_instance_exhausted (ix : Indexers) (s : State) (did : String) (exec : InstanceExec)
    (h : instancesOf s did = []) :
    (InstanceExecCreateByDeployment ix s did exec).err
        = some ⟨Code.ResourceExhausted, "No available instances for exec."⟩
      ∧ (InstanceExecCreateByDeployment ix s did exec).state.execs = s.execs
      ∧ (InstanceExecCreateByDeployment ix s did exec).state.execs.length = s.execs.length := by
  rw [create_of_nil ix s did exec h]
  exact ⟨rfl, rfl, rfl⟩

/-- C3 on a registry that holds one session of another deployment. -/
theorem create_no_instance_exhausted_witness :
    instancesOf ⟨[⟨"A", "d"⟩], [⟨1, "A", [], 0, 0, 0⟩], 1⟩ "other" = []
      ∧ (InstanceExecCreateByDeployment latin1Indexers ⟨[⟨"A", "d"⟩], [⟨1, "A", [], 0, 0, 0⟩], 1⟩ "other"
          ⟨0, "", ["sh"], 7, 8, 0⟩).state.execs = [⟨1, "A", [], 0, 0, 0⟩] :=
  ⟨by decide,
    (create_no_instance_exhausted latin1Indexers ⟨[⟨"A", "d"⟩], [⟨1, "A", [], 0, 0, 0⟩], 1⟩ "other"
      ⟨0, "", ["sh"], 7, 8, 0⟩ (by decide)).2.1⟩

/-- C4: on the healthy store of this model, the create returns a `ResourceExhausted` error if
and only if the deployment has no instance, and it returns no error at all whenever the
deployment has an instance, whatever the session counts are. -/
theorem create_exhausted_iff_no_instance (ix : Indexers) (s : State) (did : String) (exec : InstanceExec) :
    ((∃ st, (InstanceExecCreateByDeployment ix s did exec).err = some st
          ∧ st.code = Code.ResourceExhausted) ↔ instancesOf s did = [])
      ∧ ((InstanceExecCreateByDeployment ix s did exec).err = none ↔ instancesOf s did ≠ []) := by
  by_cases h : instancesOf s did = []
  · rw [create_of_nil ix s did exec h]
    simp [h]
  · obtain ⟨m, _, _, hrun⟩ := create_of_ne_nil ix s did exec h
    rw [hrun]
    simp [h]

/-- C5: after a successful create, the `InstanceId` written into `exec` is the identifier of
a row of the Instance Directory whose deployment is `did`. -/
theorem create_instance_of_deployment (ix : Indexers) (s : State) (did : String) (exec : InstanceExec)
    (h : (InstanceExecCreateByDeployment ix s did exec).err = none) :
    ∃ r ∈ s.instances, r.DeploymentId = did
      ∧ (InstanceExecCreateByDeployment ix s did exec).exec.InstanceId = r.Id := by
  by_cases hnil : instancesOf s did = []
  · rw [create_of_nil ix s did exec hnil] at h
    simp at h
  · obtain ⟨m, hm, _, hrun⟩ := create_of_ne_nil ix s did exec hnil
    rw [hrun]
    have hm' : m ∈ s.instances ∧ m.DeploymentId = did := by
      simpa [instancesOf] using hm
    exact ⟨m, hm'.1, hm'.2, rfl⟩

/-- C5 on a directory with instances of two deployments: the session for `d` goes to `A`,
not to the idle instance `X` of deployment `e`. -/
theorem create_instance_of_deployment_witness :
    (InstanceExecCreateByDeployment latin1Indexers ⟨[⟨"X", "e"⟩, ⟨"A", "d"⟩], [⟨1, "A", [], 0, 0, 0⟩], 1⟩ "d"
        ⟨0, "", ["sh"], 7, 8, 0⟩).err = none
      ∧ (InstanceExecCreateByDeployment latin1Indexers ⟨[⟨"X", "e"⟩, ⟨"A", "d"⟩], [⟨1, "A", [], 0, 0, 0⟩], 1⟩ "d"
        ⟨0, "", ["sh"], 7, 8, 0⟩).exec.InstanceId = "A"
      ∧ ∃ r ∈ [(⟨"X", "e"⟩ : Instance), ⟨"A", "d"⟩], r.DeploymentId = "d"
        ∧ (InstanceExecCreateByDeployment latin1Indexers ⟨[⟨"X", "e"⟩, ⟨"A", "d"⟩], [⟨1, "A", [], 0, 0, 0⟩], 1⟩
          "d" ⟨0, "", ["sh"], 7, 8, 0⟩).exec.InstanceId = r.Id :=
  ⟨by decide, by decide,
    create_instance_of_deployment latin1Indexers ⟨[⟨"X", "e"⟩, ⟨"A", "d"⟩], [⟨1, "A", [], 0, 0, 0⟩], 1⟩ "d"
      ⟨0, "", ["sh"], 7, 8, 0⟩ (by decide)⟩

/-! ## Identifiers along a sequence of calls (C6) -/

theorem wrapInt64_of_range (x : Int) (hlo : -9223372036854775808 ≤ x)
    (hhi : x < 9223372036854775808) : wrapInt64 x = x := by
  unfold wrapInt64
  omega

theorem stepOp_create_cases (ix : Indexers) (s : State) (did : String) (exec : InstanceExec) :
    (instancesOf s did = [] ∧ stepOp ix s (.create did exec) = (s, none))
      ∨ ∃ m ∈ instancesOf s did, stepOp ix s (.create did exec)
          = ({ s with
                execs := s.execs.filter (fun r => r.Id != wrapInt64 (s.instanceExecId + 1))
                  ++ [boundExec s exec m]
                instanceExecId := wrapInt64 (s.instanceExecId + 1) },
              some (wrapInt64 (s.instanceExecId + 1))) := by
  by_cases h : instancesOf s did = []
  · left
    refine ⟨h, ?_⟩
    simp only [stepOp, create_of_nil ix s did exec h]
  · right
    obtain ⟨m, hm, _, hrun⟩ := create_of_ne_nil ix s did exec h
    refine ⟨m, hm, ?_⟩
    simp only [stepOp, hrun]
    rfl

theorem stepOp_delete (ix : Indexers) (s : State) (id : Int) :
    stepOp ix s (.delete id) = ({ s with execs := s.execs.filter (fun r => r.Id != id) }, none) := by
  simp [stepOp, InstanceExecDelete, txnDeleteAllExecsById]

/-- A call either assigns no id and leaves the counter alone, or assigns the wrapped successor
of the counter and stores it as the new counter. -/
theorem stepOp_counter (ix : Indexers) (s : State) (op : Op) :
    ((stepOp ix s op).2 = none ∧ (stepOp ix s op).1.instanceExecId = s.instanceExecId)
      ∨ ((stepOp ix s op).2 = some (wrapInt64 (s.instanceExecId + 1))
          ∧ (stepOp ix s op).1.instanceExecId = wrapInt64 (s.instanceExecId + 1)) := by
  cases op with
  | create did exec =>
    rcases stepOp_create_cases ix s did exec with ⟨_, h⟩ | ⟨m, _, h⟩
    · left; rw [h]; exact ⟨rfl, rfl⟩
    · right; rw [h]; exact ⟨rfl, rfl⟩
  | delete id =>
    left; rw [stepOp_delete]; exact ⟨rfl, rfl⟩

/-- While the counter does not leave the `int64` range, a run advances it by the number of
ids it assigns, and the ids are strictly increasing and above the starting counter. -/
theorem runOps_ids (ix : Indexers) (ops : List Op) : ∀ s : State,
    -9223372036854775808 ≤ s.instanceExecId →
    s.instanceExecId + ((runOps ix s ops).2.length : Int) < 9223372036854775808 →
    (runOps ix s ops).1.instanceExecId = s.instanceExecId + ((runOps ix s ops).2.length : Int)
      ∧ (runOps ix s ops).2.Pairwise (fun a b => a < b)
      ∧ ∀ i ∈ (runOps ix s ops).2, s.instanceExecId < i ∧ i ≤ (runOps ix s ops).1.instanceExecId := by
  induction ops with
  | nil =>
    intro s _ _
    simp [runOps]
  | cons op ops ih =>
    intro s hlo hhi
    simp only [runOps] at hhi ⊢
    rcases stepOp_counter ix s op with ⟨h2, hc⟩ | ⟨h2, hc⟩
    · rw [h2] at hhi ⊢
      simp only [Option.toList, List.nil_append] at hhi ⊢
      have := ih (stepOp ix s op).1 (by omega) (by omega)
      rw [hc] at this
      exact this
    · rw [h2] at hhi ⊢
      simp only [Option.toList, List.singleton_append, List.length_cons, Nat.cast_add,
        Nat.cast_one] at hhi ⊢
      have hw : wrapInt64 (s.instanceExecId + 1) = s.instanceExecId + 1 :=
        wrapInt64_of_range _ (by omega) (by omega)
      rw [hw] at hc ⊢
      obtain ⟨h1, hp, hall⟩ := ih (stepOp ix s op).1 (by omega) (by omega)
      rw [hc] at h1 hall
      refine ⟨by omega, ?_, ?_⟩
      · rw [List.pairwise_cons]
        exact ⟨fun i hi => by have := (hall i hi).1; omega, hp⟩
      · intro i hi
        rcases List.mem_cons.mp hi with h | h
        · subst h; omega
        · have := hall i h
          omega

theorem boundExec_Id (s : State) (exec : InstanceExec) (m : Instance) :
    (boundExec s exec m).Id = wrapInt64 (s.instanceExecId + 1) := rfl

theorem boundExec_InstanceId (s : State) (exec : InstanceExec) (m : Instance) :
    (boundExec s exec m).InstanceId = m.Id := rfl

/-- The unique `id` index at work: no call makes two rows share an `Id`. -/
theorem stepOp_nodup (ix : Indexers) (s : State) (op : Op) (h : (s.execs.map InstanceExec.Id).Nodup) :
    ((stepOp ix s op).1.execs.map InstanceExec.Id).Nodup := by
  cases op with
  | create did exec =>
    rcases stepOp_create_cases ix s did exec with ⟨_, hs⟩ | ⟨m, _, hs⟩
    · rw [hs]; exact h
    · rw [hs]
      simp only [List.map_append, List.map_cons, List.map_nil, boundExec_Id]
      rw [List.nodup_append]
      refine ⟨h.sublist ((List.filter_sublist _).map _), List.nodup_singleton _, ?_⟩
      intro x hx hx'
      simp only [List.mem_map, List.mem_filter] at hx
      obtain ⟨e, ⟨_, he⟩, rfl⟩ := hx
      simp only [List.mem_singleton] at hx'
      simp [hx'] at he
  | delete id =>
    rw [stepOp_delete]
    exact h.sublist ((List.filter_sublist _).map _)

/-- While the counter does not leave the `int64` range, no call stores an `Id` above it. -/
theorem stepOp_bounded (ix : Indexers) (s : State) (op : Op)
    (hlo : -9223372036854775808 ≤ s.instanceExecId)
    (hhi : s.instanceExecId + ((stepOp ix s op).2.toList.length : Int) < 9223372036854775808)
    (h : ∀ e ∈ s.execs, e.Id ≤ s.instanceExecId) :
    ∀ e ∈ (stepOp ix s op).1.execs, e.Id ≤ (stepOp ix s op).1.instanceExecId := by
  cases op with
  | create did exec =>
    rcases stepOp_create_cases ix s did exec with ⟨_, hs⟩ | ⟨m, _, hs⟩
    · rw [hs]; exact h
    · rw [hs] at hhi ⊢
      simp only [Option.toList, List.length_singleton, Nat.cast_one] at hhi
      have hw : wrapInt64 (s.instanceExecId + 1) = s.instanceExecId + 1 :=
        wrapInt64_of_range _ (by omega) (by omega)
      intro e he
      simp only [List.mem_append, List.mem_filter, List.mem_singleton] at he
      rcases he with ⟨he, _⟩ | he
      · have := h e he
        simp only [hw]
        omega
      · rw [he, boundExec_Id]
  | delete id =>
    rw [stepOp_delete]
    intro e he
    simp only [List.mem_filter] at he
    exact h e he.1

theorem runOps_nodup (ix : Indexers) (ops : List Op) : ∀ s : State,
    (s.execs.map InstanceExec.Id).Nodup → ((runOps ix s ops).1.execs.map InstanceExec.Id).Nodup := by
  induction ops with
  | nil => intro s h; exact h
  | cons op ops ih =>
    intro s h
    simp only [runOps]
    exact ih _ (stepOp_nodup ix s op h)

theorem runOps_bounded (ix : Indexers) (ops : List Op) : ∀ s : State,
    -9223372036854775808 ≤ s.instanceExecId →
    s.instanceExecId + ((runOps ix s ops).2.length : Int) < 9223372036854775808 →
    (∀ e ∈ s.execs, e.Id ≤ s.instanceExecId) →
    ∀ e ∈ (runOps ix s ops).1.execs, e.Id ≤ (runOps ix s ops).1.instanceExecId := by
  induction ops with
  | nil => intro s _ _ h; exact h
  | cons op ops ih =>
    intro s hlo hhi h
    simp only [runOps, List.length_append, Nat.cast_add] at hhi ⊢
    have hstep := stepOp_bounded ix s op hlo (by omega) h
    rcases stepOp_counter ix s op with ⟨h2, hc⟩ | ⟨h2, hc⟩
    · exact ih _ (by omega) (by rw [hc]; rw [h2] at hhi; simpa using hhi) hstep
    · rw [h2] at hhi
      simp only [Option.toList, List.length_singleton, Nat.cast_one] at hhi
      have hw : wrapInt64 (s.instanceExecId + 1) = s.instanceExecId + 1 :=
        wrapInt64_of_range _ (by omega) (by omega)
      rw [hw] at hc
      exact ih _ (by omega) (by omega) hstep

theorem wrapInt64_succ_add (c : Int) (j : Nat) :
    wrapInt64 (wrapInt64 (c + 1) + 1 + (j : Int)) = wrapInt64 (c + 1 + ((j + 1 : Nat) : Int)) := by
  unfold wrapInt64
  omega

theorem wrapInt64_add_inj (c : Int) (i j : Nat) (hi : i < 18446744073709551616)
    (hj : j < 18446744073709551616)
    (h : wrapInt64 (c + 1 + (i : Int)) = wrapInt64 (c + 1 + (j : Int))) : i = j := by
  unfold wrapInt64 at h
  omega

/-- The ids a run assigns are the successors of the starting counter, one after the other,
wrapped into the `int64` range; deletes and failed creates do not move the counter. -/
theorem runOps_ids_eq (ix : Indexers) (ops : List Op) : ∀ s : State,
    (runOps ix s ops).2
      = (List.range (runOps ix s ops).2.length).map
          (fun j : Nat => wrapInt64 (s.instanceExecId + 1 + (j : Int))) := by
  induction ops with
  | nil => intro s; simp [runOps]
  | cons op ops ih =>
    intro s
    simp only [runOps]
    rcases stepOp_counter ix s op with ⟨h2, hc⟩ | ⟨h2, hc⟩
    · rw [h2]
      simp only [Option.toList, List.nil_append]
      have := ih (stepOp ix s op).1
      rw [hc] at this
      exact this
    · rw [h2]
      simp only [Option.toList, List.singleton_append, List.length_cons]
      have := ih (stepOp ix s op).1
      rw [hc] at this
      rw [List.range_succ_eq_map, List.map_cons, List.map_map]
      congr 1
      · simp
      · rw [this]
        simp only [List.length_map, List.length_range]
        apply List.map_congr_left
        intro j _
        exact wrapInt64_succ_add s.instanceExecId j

/-- Up to `2^64` ids assigned in a run are pairwise distinct, from any counter value. -/
theorem runOps_ids_nodup (ix : Indexers) (ops : List Op) (s : State)
    (h : (runOps ix s ops).2.length ≤ 18446744073709551616) : (runOps ix s ops).2.Nodup := by
  rw [runOps_ids_eq ix ops s]
  refine List.Nodup.map_on ?_ (List.nodup_range _)
  intro i hi j hj hij
  rw [List.mem_range] at hi hj
  exact wrapInt64_add_inj s.instanceExecId i j (by omega) (by omega) hij

/-- C6 fails as stated: from the counter value `2^63 - 2` two creates in a row are given the
ids `2^63 - 1` and then `-2^63` (`atomic.AddInt64` wraps), which is not increasing; and a row
stored with id `5` is above the counter after a create from the counter value `2^63 - 1`. -/
theorem ids_increasing_counterexample :
    (runOps latin1Indexers ⟨[⟨"A", "d"⟩], [], 9223372036854775806⟩
        [.create "d" ⟨0, "", [], 0, 0, 0⟩, .create "d" ⟨0, "", [], 0, 0, 0⟩]).2
      = [9223372036854775807, -9223372036854775808]
    ∧ ¬ (runOps latin1Indexers ⟨[⟨"A", "d"⟩], [], 9223372036854775806⟩
        [.create "d" ⟨0, "", [], 0, 0, 0⟩, .create "d" ⟨0, "", [], 0, 0, 0⟩]).2.Pairwise
          (fun a b => a < b)
    ∧ (∀ e ∈ [(⟨5, "A", [], 0, 0, 0⟩ : InstanceExec)], e.Id ≤ 9223372036854775807)
    ∧ ¬ ∀ e ∈ (runOps latin1Indexers ⟨[⟨"A", "d"⟩], [⟨5, "A", [], 0, 0, 0⟩], 9223372036854775807⟩
          [.create "d" ⟨0, "", [], 0, 0, 0⟩]).1.execs,
        e.Id ≤ (runOps latin1Indexers ⟨[⟨"A", "d"⟩], [⟨5, "A", [], 0, 0, 0⟩], 9223372036854775807⟩
          [.create "d" ⟨0, "", [], 0, 0, 0⟩]).1.instanceExecId := by
  refine ⟨by decide, by decide, by decide, by decide⟩

/-- C6, amended: in every sequence of creates and deletes run one after another from any
state, the ids assigned by the successful creates are the successors of the starting counter
in turn, wrapped into `int64`. They are pairwise distinct, so no id is given out again,
deletes or not, in a sequence of at most `2^64` successful creates; rows with pairwise
distinct ids keep pairwise distinct ids in every sequence. As long as the counter, an
`int64`, does not pass `2^63 - 1` during the sequence, the ids are strictly increasing in
call order and above the starting counter, so different from every id stored at or below it,
and rows with ids at most the counter stay so. -/
theorem ids_distinct_and_increasing (ix : Indexers) (s : State) (ops : List Op) :
    (runOps ix s ops).2
        = (List.range (runOps ix s ops).2.length).map
            (fun j : Nat => wrapInt64 (s.instanceExecId + 1 + (j : Int)))
      ∧ ((runOps ix s ops).2.length ≤ 18446744073709551616 → (runOps ix s ops).2.Nodup)
      ∧ ((s.execs.map InstanceExec.Id).Nodup →
          ((runOps ix s ops).1.execs.map InstanceExec.Id).Nodup)
      ∧ (-9223372036854775808 ≤ s.instanceExecId →
          s.instanceExecId + ((runOps ix s ops).2.length : Int) < 9223372036854775808 →
          (runOps ix s ops).2.Pairwise (fun a b => a < b)
            ∧ (∀ i ∈ (runOps ix s ops).2, s.instanceExecId < i)
            ∧ ((∀ e ∈ s.execs, e.Id ≤ s.instanceExecId) →
                (∀ i ∈ (runOps ix s ops).2, ∀ e ∈ s.execs, e.Id ≠ i)
                  ∧ ∀ e ∈ (runOps ix s ops).1.execs,
                      e.Id ≤ (runOps ix s ops).1.instanceExecId)) := by
  refine ⟨runOps_ids_eq ix ops s, runOps_ids_nodup ix ops s, runOps_nodup ix ops s, ?_⟩
  intro hlo hhi
  obtain ⟨_, hp, hall⟩ := runOps_ids ix ops s hlo hhi
  refine ⟨hp, fun i hi => (hall i hi).1, ?_⟩
  intro hb
  refine ⟨?_, runOps_bounded ix ops s hlo hhi hb⟩
  intro i hi e he
  have h1 := hb e he
  have h2 := (hall i hi).1
  omega

/-- C6 amended, on a create, a delete of the id just given, and another create from the
counter value `2^63 - 1`: the ids are `-2^63` and `-2^63 + 1`, distinct, and the second
create does not get the deleted id again. -/
theorem ids_distinct_and_increasing_witness :
    (runOps latin1Indexers ⟨[⟨"A", "d"⟩], [], 9223372036854775807⟩
        [.create "d" ⟨0, "", [], 0, 0, 0⟩, .delete (-9223372036854775808),
          .create "d" ⟨0, "", [], 0, 0, 0⟩]).2
      = [-9223372036854775808, -9223372036854775807]
    ∧ (runOps latin1Indexers ⟨[⟨"A", "d"⟩], [], 9223372036854775807⟩
        [.create "d" ⟨0, "", [], 0, 0, 0⟩, .delete (-9223372036854775808),
          .create "d" ⟨0, "", [], 0, 0, 0⟩]).2.Nodup
    ∧ (runOps latin1Indexers ⟨[⟨"A", "d"⟩], [], 0⟩
        [.create "d" ⟨0, "", [], 0, 0, 0⟩, .delete 1, .create "d" ⟨0, "", [], 0, 0, 0⟩]).2.Pairwise
          (fun a b => a < b) :=
  ⟨by decide,
    (ids_distinct_and_increasing latin1Indexers ⟨[⟨"A", "d"⟩], [], 9223372036854775807⟩
      [.create "d" ⟨0, "", [], 0, 0, 0⟩, .delete (-9223372036854775808),
        .create "d" ⟨0, "", [], 0, 0, 0⟩]).2.1 (by decide),
    ((ids_distinct_and_increasing latin1Indexers ⟨[⟨"A", "d"⟩], [], 0⟩
      [.create "d" ⟨0, "", [], 0, 0, 0⟩, .delete 1, .create "d" ⟨0, "", [], 0, 0, 0⟩]).2.2.2
      (by decide) (by decide)).1⟩

/-! ## Delete (C7, C8) -/

theorem InstanceExecDelete_eq (s : State) (id : Int) :
    InstanceExecDelete s id
      = ({ s with execs := s.execs.filter (fun r => r.Id != id) }, none) := by
  simp [InstanceExecDelete, txnDeleteAllExecsById]

theorem filter_id_length_le_one (l : List InstanceExec) (id : Int)
    (h : (l.map InstanceExec.Id).Nodup) :
    (l.filter (fun r => r.Id == id)).length ≤ 1 := by
  induction l with
  | nil => simp
  | cons e l ih =>
    rw [List.map_cons, List.nodup_cons] at h
    by_cases he : e.Id = id
    · have hnone : l.filter (fun r => r.Id == id) = [] := by
        rw [List.filter_eq_nil_iff]
        intro x hx hxid
        apply h.1
        rw [he]
        exact List.mem_map.mpr ⟨x, hx, by simpa using hxid⟩
      simp [List.filter_cons, he, hnone]
    · simpa [List.filter_cons, he] using ih h.2

/-- C7: a delete returns no error; a second delete of the same id returns no error and
leaves the state exactly as the first left it; a delete of an id that no row has returns no
error and leaves the state unchanged. -/
theorem delete_idempotent (s : State) (id : Int) :
    (InstanceExecDelete s id).2 = none
      ∧ (InstanceExecDelete (InstanceExecDelete s id).1 id).2 = none
      ∧ (InstanceExecDelete (InstanceExecDelete s id).1 id).1 = (InstanceExecDelete s id).1
      ∧ ((∀ e ∈ s.execs, e.Id ≠ id) → InstanceExecDelete s id = (s, none)) := by
  refine ⟨by simp [InstanceExecDelete_eq], by simp [InstanceExecDelete_eq], ?_, ?_⟩
  · simp [InstanceExecDelete_eq, List.filter_filter]
  · intro h
    rw [InstanceExecDelete_eq]
    have : s.execs.filter (fun r => r.Id != id) = s.execs := by
      rw [List.filter_eq_self]
      intro a ha
      simpa using h a ha
    rw [this]

/-- C7 on a registry of two sessions: after deleting session `1` a second delete changes
nothing, and a delete of the absent id `9` changes nothing. -/
theorem delete_idempotent_witness :
    (InstanceExecDelete (InstanceExecDelete
        ⟨[⟨"A", "d"⟩], [⟨1, "A", [], 0, 0, 0⟩, ⟨2, "A", [], 0, 0, 0⟩], 2⟩ 1).1 1).1
      = ⟨[⟨"A", "d"⟩], [⟨2, "A", [], 0, 0, 0⟩], 2⟩
    ∧ InstanceExecDelete ⟨[⟨"A", "d"⟩], [⟨1, "A", [], 0, 0, 0⟩, ⟨2, "A", [], 0, 0, 0⟩], 2⟩ 9
      = (⟨[⟨"A", "d"⟩], [⟨1, "A", [], 0, 0, 0⟩, ⟨2, "A", [], 0, 0, 0⟩], 2⟩, none) :=
  ⟨by decide,
    (delete_idempotent ⟨[⟨"A", "d"⟩], [⟨1, "A", [], 0, 0, 0⟩, ⟨2, "A", [], 0, 0, 0⟩], 2⟩ 9).2.2.2
      (by decide)⟩

/-- C8: a delete removes the rows whose `Id` is `id` and nothing else: afterwards no row has
that `Id`; every row with another `Id` is in the table as often as before, and unchanged;
the listing of every instance is the listing before the call without the rows of that `Id`;
the directory and the counter are untouched; and where ids are pairwise distinct (the unique
index), at most one row goes. -/
theorem delete_removes_only_id (ix : Indexers) (s : State) (id : Int) :
    (∀ e ∈ (InstanceExecDelete s id).1.execs, e.Id ≠ id)
      ∧ (∀ e : InstanceExec, e.Id ≠ id →
          (InstanceExecDelete s id).1.execs.count e = s.execs.count e)
      ∧ (∀ x : String, instanceExecListByInstanceId ix (InstanceExecDelete s id).1 x
          = (instanceExecListByInstanceId ix s x).map (List.filter (fun r => r.Id != id)))
      ∧ (InstanceExecDelete s id).1.instances = s.instances
      ∧ (InstanceExecDelete s id).1.instanceExecId = s.instanceExecId
      ∧ ((s.execs.map InstanceExec.Id).Nodup →
          s.execs.length ≤ (InstanceExecDelete s id).1.execs.length + 1) := by
  simp only [InstanceExecDelete_eq, instanceExecListByInstanceId_eq]
  refine ⟨?_, ?_, ?_, ?_⟩
  · intro e he
    simpa using (List.mem_filter.mp he).2
  · intro e he
    rw [List.count_filter]
    simpa using he
  · intro x
    simp [Except.map, List.filter_filter, Bool.and_comm]
  · refine ⟨trivial, trivial, ?_⟩
    intro h
    have h1 := filter_id_length_le_one s.execs id h
    have h2 : (s.execs.filter (fun r => r.Id == id)).length
        + (s.execs.filter (fun r => r.Id != id)).length = s.execs.length := by
      have := List.length_eq_length_filter_add (l := s.execs) (fun r => r.Id == id)
      simp only [bne] 
      omega
    omega

/-- C8 on a registry of three sessions on two instances: deleting session `2` leaves
sessions `1` and `3`. -/
theorem delete_removes_only_id_witness :
    (InstanceExecDelete
        ⟨[⟨"A", "d"⟩, ⟨"B", "d"⟩],
          [⟨1, "A", [], 0, 0, 0⟩, ⟨2, "A", [], 0, 0, 0⟩, ⟨3, "B", [], 0, 0, 0⟩], 3⟩ 2).1.execs
      = [⟨1, "A", [], 0, 0, 0⟩, ⟨3, "B", [], 0, 0, 0⟩]
    ∧ ∀ e ∈ (InstanceExecDelete
        ⟨[⟨"A", "d"⟩, ⟨"B", "d"⟩],
          [⟨1, "A", [], 0, 0, 0⟩, ⟨2, "A", [], 0, 0, 0⟩, ⟨3, "B", [], 0, 0, 0⟩], 3⟩ 2).1.execs,
        e.Id ≠ 2 :=
  ⟨by decide,
    (delete_removes_only_id latin1Indexers
      ⟨[⟨"A", "d"⟩, ⟨"B", "d"⟩],
        [⟨1, "A", [], 0, 0, 0⟩, ⟨2, "A", [], 0, 0, 0⟩, ⟨3, "B", [], 0, 0, 0⟩], 3⟩ 2).1⟩

/-! ## Listing after creates and a delete (C9) -/

theorem stepOp_instances (ix : Indexers) (s : State) (op : Op) : (stepOp ix s op).1.instances = s.instances := by
  cases op with
  | create did exec =>
    rcases stepOp_create_cases ix s did exec with ⟨_, hs⟩ | ⟨m, _, hs⟩ <;> rw [hs]
  | delete id => rw [stepOp_delete]

theorem wrapInt64_succ_ne (c : Int) (j : Nat) (hj : j + 1 < 18446744073709551616) :
    wrapInt64 (c - j) ≠ wrapInt64 (c + 1) := by
  unfold wrapInt64
  omega

theorem wrapInt64_shift (c : Int) (j : Nat) :
    wrapInt64 (wrapInt64 (c + 1) - ((j + 1 : Nat) : Int)) = wrapInt64 (c - j) := by
  unfold wrapInt64
  omega

theorem wrapInt64_idem (c : Int) : wrapInt64 (wrapInt64 c - ((0 : Nat) : Int)) = wrapInt64 c := by
  unfold wrapInt64
  omega

/-- Creates for a deployment whose only instance is `inst`, run on a table whose `n` rows are
bound to `inst` and carry ids among the last `n` counter values: as long as fewer than `2^64`
rows result, every create succeeds, appends one row bound to `inst` and replaces none. -/
theorem runOps_creates_single (ix : Indexers) (did : String) (inst : Instance) (ts : List InstanceExec) :
    ∀ (s : State) (n : Nat), instancesOf s did = [inst] →
    (∀ e ∈ s.execs, e.InstanceId = inst.Id) →
    (∀ e ∈ s.execs, ∃ j : Nat, j < n ∧ e.Id = wrapInt64 (s.instanceExecId - j)) →
    n + ts.length ≤ 18446744073709551616 →
    (runOps ix s (ts.map (Op.create did))).1.execs.map InstanceExec.Id
        = s.execs.map InstanceExec.Id ++ (runOps ix s (ts.map (Op.create did))).2
      ∧ (runOps ix s (ts.map (Op.create did))).2.length = ts.length
      ∧ ∀ e ∈ (runOps ix s (ts.map (Op.create did))).1.execs, e.InstanceId = inst.Id := by
  induction ts with
  | nil =>
    intro s n _ hb _ _
    simpa [runOps] using hb
  | cons t ts ih =>
    intro s n honly hb hids hsize
    simp only [List.length_cons] at hsize
    simp only [List.map_cons, runOps]
    rcases stepOp_create_cases ix s did t with ⟨hnil, _⟩ | ⟨m, hm, hs⟩
    · rw [honly] at hnil
      exact absurd hnil (by simp)
    · rw [honly, List.mem_singleton] at hm
      subst hm
      have hkeep : s.execs.filter (fun r => r.Id != wrapInt64 (s.instanceExecId + 1))
          = s.execs := by
        rw [List.filter_eq_self]
        intro e he
        obtain ⟨j, hj, hej⟩ := hids e he
        have := wrapInt64_succ_ne s.instanceExecId j (by omega)
        simpa [hej] using this
      rw [hkeep] at hs
      rw [hs]
      have hinst : instancesOf
          { s with
            execs := s.execs ++ [boundExec s t m]
            instanceExecId := wrapInt64 (s.instanceExecId + 1) } did = [m] := honly
      obtain ⟨h1, h2, h3⟩ := ih _ (n + 1) hinst
        (by
          intro e he
          rcases List.mem_append.mp he with h | h
          · exact hb e h
          · rw [List.mem_singleton.mp h]; rfl)
        (by
          intro e he
          rcases List.mem_append.mp he with h | h
          · obtain ⟨j, hj, hej⟩ := hids e h
            exact ⟨j + 1, by omega, by rw [hej]; exact (wrapInt64_shift _ j).symm⟩
          · rw [List.mem_singleton.mp h]
            exact ⟨0, by omega, (wrapInt64_idem _).symm⟩)
        (by omega)
      refine ⟨?_, ?_, h3⟩
      · rw [h1]
        simp [boundExec_Id]
      · simp [h2]

/-- C9: from a registry with no exec sessions and a deployment `did` whose only instance is
`inst`, after `K` creates for `did` (one per template, `K` below `2^64`) every create has
succeeded, and after the delete of one of the ids they were given the listing of `inst` has
exactly `K - 1` rows, none with the deleted id: the rows of the other `K - 1` ids. -/
theorem list_after_creates_delete (ix : Indexers) (s : State) (did : String) (inst : Instance)
    (templates : List InstanceExec) (id : Int)
    (hempty : s.execs = [])
    (honly : instancesOf s did = [inst])
    (hsize : templates.length ≤ 18446744073709551616)
    (hid : id ∈ (runOps ix s (templates.map (Op.create did))).2) :
    (runOps ix s (templates.map (Op.create did))).2.length = templates.length
      ∧ 1 ≤ templates.length
      ∧ ∃ rows, instanceExecListByInstanceId ix
            (InstanceExecDelete (runOps ix s (templates.map (Op.create did))).1 id).1 inst.Id
          = .ok rows
        ∧ rows.length = templates.length - 1
        ∧ (∀ e ∈ rows, e.Id ≠ id)
        ∧ (rows.map InstanceExec.Id).Perm
          ((runOps ix s (templates.map (Op.create did))).2.filter (fun i => i != id)) := by
  obtain ⟨h1, h2, h3⟩ := runOps_creates_single ix did inst templates s 0 honly
    (by simp [hempty]) (by simp [hempty]) (by omega)
  have hnodup := runOps_nodup ix (templates.map (Op.create did)) s (by simp [hempty])
  simp only [hempty, List.map_nil, List.nil_append] at h1
  rw [h1] at hnodup
  have hpos : 1 ≤ templates.length := by
    rw [← h2]
    exact List.length_pos_of_mem hid
  have hlist : instanceExecListByInstanceId ix
      (InstanceExecDelete (runOps ix s (templates.map (Op.create did))).1 id).1 inst.Id
      = .ok ((runOps ix s (templates.map (Op.create did))).1.execs.filter
          (fun r => r.Id != id)) := by
    rw [instanceExecListByInstanceId_eq, InstanceExecDelete_eq]
    congr 1
    rw [List.filter_eq_self]
    intro e he
    have hself := seekMatches_self ix e
    rwa [h3 e (List.mem_filter.mp he).1] at hself
  have hmap : ((runOps ix s (templates.map (Op.create did))).1.execs.filter
      (fun r => r.Id != id)).map InstanceExec.Id
      = (runOps ix s (templates.map (Op.create did))).2.filter (fun i => i != id) := by
    rw [← h1, List.filter_map]
    rfl
  refine ⟨h2, hpos, _, hlist, ?_, ?_, List.Perm.of_eq hmap⟩
  · have hlen := congrArg List.length hmap
    rw [List.length_map] at hlen
    rw [hlen, ← h2]
    have herase := hnodup.erase_eq_filter id
    have : (runOps ix s (templates.map (Op.create did))).2.filter (fun i => i != id)
        = (runOps ix s (templates.map (Op.create did))).2.erase id := by
      rw [herase]
    rw [this, List.length_erase_of_mem hid]
  · intro e he
    simpa using (List.mem_filter.mp he).2

/-- C9 at `K = 3`: after three creates for `d` and the delete of id `2`, the listing of `I`
has the two rows of ids `1` and `3`. -/
theorem list_after_creates_delete_witness :
    (runOps latin1Indexers ⟨[⟨"I", "d"⟩], [], 0⟩
        ([⟨0, "", ["a"], 0, 0, 0⟩, ⟨0, "", ["b"], 0, 0, 0⟩, ⟨0, "", ["c"], 0, 0, 0⟩].map
          (Op.create "d"))).2 = [1, 2, 3]
    ∧ instanceExecListByInstanceId latin1Indexers
        (InstanceExecDelete (runOps latin1Indexers ⟨[⟨"I", "d"⟩], [], 0⟩
          ([⟨0, "", ["a"], 0, 0, 0⟩, ⟨0, "", ["b"], 0, 0, 0⟩, ⟨0, "", ["c"], 0, 0, 0⟩].map
            (Op.create "d"))).1 2).1 "I"
      = .ok [⟨1, "I", ["a"], 0, 0, 0⟩, ⟨3, "I", ["c"], 0, 0, 0⟩]
    ∧ (runOps latin1Indexers ⟨[⟨"I", "d"⟩], [], 0⟩
        ([⟨0, "", ["a"], 0, 0, 0⟩, ⟨0, "", ["b"], 0, 0, 0⟩, ⟨0, "", ["c"], 0, 0, 0⟩].map
          (Op.create "d"))).2.length = 3 :=
  ⟨by decide, by rfl,
    (list_after_creates_delete latin1Indexers ⟨[⟨"I", "d"⟩], [], 0⟩ "d" ⟨"I", "d"⟩
      [⟨0, "", ["a"], 0, 0, 0⟩, ⟨0, "", ["b"], 0, 0, 0⟩, ⟨0, "", ["c"], 0, 0, 0⟩] 2
      rfl (by decide) (by decide) (by decide)).1⟩

/-! ## The listing by instance (C10) -/

/-- C10 fails as stated: the index is seeked by initial segment of the key, so the listing
of `a` returns the session bound to the identifier `a`, NUL, `b`, which is not `a` under
any comparison of lower-cased identifiers: a session other than those of `a` is listed. -/
theorem list_by_instance_counterexample :
    instanceExecListByInstanceId latin1Indexers ⟨[], [⟨1, "a\x00b", [], 0, 0, 0⟩], 1⟩ "a"
        = .ok [⟨1, "a\x00b", [], 0, 0, 0⟩]
      ∧ toLower latin1Indexers "a\x00b" ≠ toLower latin1Indexers "a"
      ∧ ¬ ∀ e ∈ [(⟨1, "a\x00b", [], 0, 0, 0⟩ : InstanceExec)],
          seekMatches latin1Indexers "a" e = true →
            toLower latin1Indexers e.InstanceId = toLower latin1Indexers "a" := by
  refine ⟨by rfl, by decide, by decide⟩

theorem toLower_ABC (ix : Indexers)
    (hascii : ∀ n, n < 128 → ix.toLowerRune n = if 65 ≤ n ∧ n ≤ 90 then n + 32 else n) :
    toLower ix "ABC" = toLower ix "abc" := by
  have h : ∀ c ∈ [65, 66, 67, 97, 98, 99], c < 128 := by decide
  have e1 : "ABC".data = ['A', 'B', 'C'] := rfl
  have e2 : "abc".data = ['a', 'b', 'c'] := rfl
  have n1 : 'A'.toNat = 65 := rfl
  have n2 : 'B'.toNat = 66 := rfl
  have n3 : 'C'.toNat = 67 := rfl
  have n4 : 'a'.toNat = 97 := rfl
  have n5 : 'b'.toNat = 98 := rfl
  have n6 : 'c'.toNat = 99 := rfl
  simp only [toLower, e1, e2, List.map_cons, List.map_nil, n1, n2, n3, n4, n5, n6,
    hascii 65 (by omega), hascii 66 (by omega), hascii 67 (by omega), hascii 97 (by omega),
    hascii 98 (by omega), hascii 99 (by omega)]
  decide

/-- C10, amended: the listing of `x` returns the rows of the table whose index key (the
lower-cased `InstanceId`, a NUL byte, the bytes of `Id`) starts with the key of `x` (`x`
lower-cased, a NUL byte), each as often as the table holds it and no other row. Where the
lower-cased identifiers hold no NUL byte, these are exactly the rows whose `InstanceId`,
lower-cased, equals `x` lower-cased. Identifiers with the same lower-casing have the same
listing, as `"ABC"` and `"abc"` have under a rune table that lower-cases ASCII as
`unicode.ToLower` does; and one instance can have several rows listed. -/
theorem list_by_instance_case_insensitive (ix : Indexers) (s : State) (x : String) :
    (∃ rows, instanceExecListByInstanceId ix s x = .ok rows
        ∧ (∀ e, e ∈ rows ↔ e ∈ s.execs ∧ seekMatches ix x e = true)
        ∧ (0 ∉ toLower ix x → ∀ e, 0 ∉ toLower ix e.InstanceId →
            (e ∈ rows ↔ e ∈ s.execs ∧ toLower ix e.InstanceId = toLower ix x))
        ∧ (∀ e, seekMatches ix x e = true → rows.count e = s.execs.count e)
        ∧ (s.execs.Nodup → rows.Nodup))
      ∧ (∀ y, toLower ix y = toLower ix x →
          instanceExecListByInstanceId ix s y = instanceExecListByInstanceId ix s x)
      ∧ ((∀ n, n < 128 → ix.toLowerRune n = if 65 ≤ n ∧ n ≤ 90 then n + 32 else n) →
          instanceExecListByInstanceId ix s "ABC" = instanceExecListByInstanceId ix s "abc")
      ∧ ∃ rows, instanceExecListByInstanceId ix
            ⟨[⟨"a", "d"⟩], [⟨1, "a", [], 0, 0, 0⟩, ⟨2, "a", [], 0, 0, 0⟩], 2⟩ "a" = .ok rows
          ∧ rows.length = 2 := by
  have hcongr : ∀ y z, toLower ix y = toLower ix z →
      instanceExecListByInstanceId ix s y = instanceExecListByInstanceId ix s z := by
    intro y z hyz
    rw [instanceExecListByInstanceId_eq, instanceExecListByInstanceId_eq]
    have hfun : (fun e => seekMatches ix y e) = (fun e => seekMatches ix z e) :=
      funext (fun e => seekMatches_congr ix y z e hyz)
    rw [hfun]
  refine ⟨⟨_, instanceExecListByInstanceId_eq ix s x, ?_, ?_, ?_, ?_⟩, ?_, ?_, ?_⟩
  · intro e
    simp [List.mem_filter]
  · intro hx e he
    rw [List.mem_filter, seekMatches_iff ix x e hx he]
  · intro e he
    rw [List.count_filter]
    exact he
  · intro h
    exact h.filter _
  · intro y hy
    exact hcongr y x hy
  · intro hascii
    exact hcongr _ _ (toLower_ABC ix hascii)
  · refine ⟨_, instanceExecListByInstanceId_eq ix _ _, ?_⟩
    have h1 := seekMatches_self ix ⟨1, "a", [], 0, 0, 0⟩
    have h2 := seekMatches_self ix ⟨2, "a", [], 0, 0, 0⟩
    simp [List.filter_cons, h1, h2]

/-- C10 amended, under the Latin-1 rune table: `"ABC"` and `"abc"` have one listing, and the
listing of `é` returns the session bound to `É`. -/
theorem list_by_instance_case_insensitive_witness :
    instanceExecListByInstanceId latin1Indexers ⟨[], [⟨1, "AbC", [], 0, 0, 0⟩], 1⟩ "ABC"
        = instanceExecListByInstanceId latin1Indexers ⟨[], [⟨1, "AbC", [], 0, 0, 0⟩], 1⟩ "abc"
      ∧ instanceExecListByInstanceId latin1Indexers ⟨[], [⟨1, "AbC", [], 0, 0, 0⟩], 1⟩ "abc"
        = .ok [⟨1, "AbC", [], 0, 0, 0⟩]
      ∧ instanceExecListByInstanceId latin1Indexers ⟨[], [⟨1, "É", [], 0, 0, 0⟩], 1⟩ "é"
        = .ok [⟨1, "É", [], 0, 0, 0⟩] :=
  ⟨(list_by_instance_case_insensitive latin1Indexers ⟨[], [⟨1, "AbC", [], 0, 0, 0⟩], 1⟩
      "x").2.2.1 (fun n hn => by
        show foldLatin1 n = _
        unfold foldLatin1
        split <;> split <;> omega),
    by rfl, by rfl⟩

/-! ## Optimal placement and ties (C14, C15) -/

/-- C17: when the create fails with `ResourceExhausted`, the deployment has no instance, the
state (tables and id counter) and the caller's `exec` record, `Id` and `InstanceId`
included, are exactly as before the call, and so every later call behaves as if the failed
call had not been made: a create that follows is given the same id. -/
theorem create_exhausted_no_effect (ix : Indexers) (s : State) (did : String) (exec : InstanceExec)
    (hfail : ∃ st, (InstanceExecCreateByDeployment ix s did exec).err = some st
      ∧ st.code = Code.ResourceExhausted) :
    instancesOf s did = []
      ∧ (InstanceExecCreateByDeployment ix s did exec).state.instanceExecId = s.instanceExecId
      ∧ (InstanceExecCreateByDeployment ix s did exec).exec.Id = exec.Id
      ∧ (InstanceExecCreateByDeployment ix s did exec).exec.InstanceId = exec.InstanceId
      ∧ (InstanceExecCreateByDeployment ix s did exec).state = s
      ∧ (InstanceExecCreateByDeployment ix s did exec).exec = exec
      ∧ ∀ did2 exec2,
          InstanceExecCreateByDeployment ix (InstanceExecCreateByDeployment ix s did exec).state
              did2 exec2
            = InstanceExecCreateByDeployment ix s did2 exec2 := by
  have hnil : instancesOf s did = [] := by
    by_contra hne
    obtain ⟨m, _, _, hrun⟩ := create_of_ne_nil ix s did exec hne
    rw [hrun] at hfail
    obtain ⟨st, hst, _⟩ := hfail
    simp at hst
  rw [create_of_nil ix s did exec hnil]
  exact ⟨hnil, rfl, rfl, rfl, rfl, rfl, fun _ _ => rfl⟩

/-- C17 on a failed create for a deployment without instances, followed by a create for
`d`: the counter stays at `4` and the second create is given id `5`. -/
theorem create_exhausted_no_effect_witness :
    (InstanceExecCreateByDeployment latin1Indexers ⟨[⟨"A", "d"⟩], [⟨4, "A", [], 0, 0, 0⟩], 4⟩ "none"
        ⟨0, "", ["sh"], 7, 8, 0⟩).state.instanceExecId = 4
      ∧ (InstanceExecCreateByDeployment latin1Indexers
          (InstanceExecCreateByDeployment latin1Indexers ⟨[⟨"A", "d"⟩], [⟨4, "A", [], 0, 0, 0⟩], 4⟩ "none"
            ⟨0, "", ["sh"], 7, 8, 0⟩).state "d" ⟨0, "", ["sh"], 7, 8, 0⟩).exec.Id = 5 :=
  ⟨(create_exhausted_no_effect latin1Indexers ⟨[⟨"A", "d"⟩], [⟨4, "A", [], 0, 0, 0⟩], 4⟩ "none"
      ⟨0, "", ["sh"], 7, 8, 0⟩ ⟨_, rfl, rfl⟩).2.1,
    by decide⟩

/-! ## What a successful create changes (C13) -/

/-- C13 fails as stated: from the counter value `2^63 - 1` a successful create sets `Id` to
`-2^63` (`atomic.AddInt64` wraps), not to the counter plus one, and the counter is `-2^63`
afterwards. -/
theorem create_id_counterexample :
    (InstanceExecCreateByDeployment latin1Indexers ⟨[⟨"A", "d"⟩], [], 9223372036854775807⟩ "d"
        ⟨0, "", ["sh"], 7, 8, 0⟩).err = none
      ∧ (InstanceExecCreateByDeployment latin1Indexers ⟨[⟨"A", "d"⟩], [], 9223372036854775807⟩ "d"
        ⟨0, "", ["sh"], 7, 8, 0⟩).exec.Id = -9223372036854775808
      ∧ (InstanceExecCreateByDeployment latin1Indexers ⟨[⟨"A", "d"⟩], [], 9223372036854775807⟩ "d"
        ⟨0, "", ["sh"], 7, 8, 0⟩).exec.Id ≠ 9223372036854775807 + 1
      ∧ (InstanceExecCreateByDeployment latin1Indexers ⟨[⟨"A", "d"⟩], [], 9223372036854775807⟩ "d"
        ⟨0, "", ["sh"], 7, 8, 0⟩).state.instanceExecId ≠ 9223372036854775807 + 1 := by
  refine ⟨by decide, by decide, by decide, by decide⟩

/-- C13, amended: on a successful create `Args`, `Reader`, `EventCh` and `Connected` of
`exec` are as in the template, the row stored in the table is that record (the only row
with its `Id`), `Id` is the previous counter value plus one wrapped into `int64`, and the
counter is set to the same value; for a counter from `-2^63` to `2^63 - 2` that is the
previous counter value plus one, and the counter advances by exactly one. -/
theorem create_changes_only_ids (ix : Indexers) (s : State) (did : String) (exec : InstanceExec)
    (h : (InstanceExecCreateByDeployment ix s did exec).err = none) :
    (InstanceExecCreateByDeployment ix s did exec).exec.Args = exec.Args
      ∧ (InstanceExecCreateByDeployment ix s did exec).exec.Reader = exec.Reader
      ∧ (InstanceExecCreateByDeployment ix s did exec).exec.EventCh = exec.EventCh
      ∧ (InstanceExecCreateByDeployment ix s did exec).exec.Connected = exec.Connected
      ∧ (InstanceExecCreateByDeployment ix s did exec).exec
          ∈ (InstanceExecCreateByDeployment ix s did exec).state.execs
      ∧ (∀ e ∈ (InstanceExecCreateByDeployment ix s did exec).state.execs,
          e.Id = (InstanceExecCreateByDeployment ix s did exec).exec.Id →
            e = (InstanceExecCreateByDeployment ix s did exec).exec)
      ∧ (InstanceExecCreateByDeployment ix s did exec).exec.Id
          = wrapInt64 (s.instanceExecId + 1)
      ∧ (InstanceExecCreateByDeployment ix s did exec).state.instanceExecId
          = wrapInt64 (s.instanceExecId + 1)
      ∧ (-9223372036854775808 ≤ s.instanceExecId →
          s.instanceExecId < 9223372036854775807 →
          (InstanceExecCreateByDeployment ix s did exec).exec.Id = s.instanceExecId + 1
            ∧ (InstanceExecCreateByDeployment ix s did exec).state.instanceExecId
              = s.instanceExecId + 1) := by
  by_cases hnil : instancesOf s did = []
  · rw [create_of_nil ix s did exec hnil] at h
    simp at h
  · obtain ⟨m, _, _, hrun⟩ := create_of_ne_nil ix s did exec hnil
    rw [hrun]
    refine ⟨rfl, rfl, rfl, rfl, by simp, ?_, rfl, rfl, ?_⟩
    · intro e he hid
      rcases List.mem_append.mp he with h1 | h1
      · have := (List.mem_filter.mp h1).2
        rw [boundExec_Id] at hid
        simp [hid] at this
      · exact List.mem_singleton.mp h1
    · intro hlo hhi
      have hw : wrapInt64 (s.instanceExecId + 1) = s.instanceExecId + 1 :=
        wrapInt64_of_range _ (by omega) (by omega)
      exact ⟨by rw [boundExec_Id, hw], hw⟩

/-- C13 amended, on a create from the counter value `4`: the record comes back with `Id`
`5`, bound to `A`, and with the template's other fields. -/
theorem create_changes_only_ids_witness :
    (InstanceExecCreateByDeployment latin1Indexers ⟨[⟨"A", "d"⟩], [⟨4, "A", [], 0, 0, 0⟩], 4⟩ "d"
        ⟨0, "", ["sh"], 7, 8, 1⟩).exec = ⟨5, "A", ["sh"], 7, 8, 1⟩
      ∧ (InstanceExecCreateByDeployment latin1Indexers ⟨[⟨"A", "d"⟩], [⟨4, "A", [], 0, 0, 0⟩], 4⟩ "d"
        ⟨0, "", ["sh"], 7, 8, 1⟩).exec.Args = ["sh"] :=
  ⟨by decide,
    (create_changes_only_ids latin1Indexers ⟨[⟨"A", "d"⟩], [⟨4, "A", [], 0, 0, 0⟩], 4⟩ "d"
      ⟨0, "", ["sh"], 7, 8, 1⟩ (by decide)).1⟩

/-! ## The listings after a create (C11) -/

theorem wrapInt64_succ_ne_self (c : Int) :
    wrapInt64 (wrapInt64 (c + 1) + 1) ≠ wrapInt64 (c + 1) := by
  unfold wrapInt64
  omega

/-- The session count of `y` once the row `b` has been appended to the table. -/
theorem sessionCount_append (ix : Indexers) (s : State) (b : InstanceExec) (c : Int)
    (y : String) :
    sessionCount ix { s with execs := s.execs ++ [b], instanceExecId := c } y
      = sessionCount ix s y + (if seekMatches ix y b = true then 1 else 0) := by
  simp only [sessionCount_eq, List.filter_append, List.length_append]
  by_cases h : seekMatches ix y b = true
  · simp [h, List.filter_cons]
  · simp [h, List.filter_cons]

/-- A create whose new id no row holds appends its record and replaces nothing. -/
theorem create_of_fresh (ix : Indexers) (s : State) (did : String) (exec : InstanceExec)
    (hne : instancesOf s did ≠ [])
    (hfresh : ∀ e ∈ s.execs, e.Id ≠ wrapInt64 (s.instanceExecId + 1)) :
    ∃ m ∈ instancesOf s did,
      (∀ r' ∈ instancesOf s did, sessionCount ix s m.Id ≤ sessionCount ix s r'.Id)
      ∧ InstanceExecCreateByDeployment ix s did exec
        = ⟨{ s with
              execs := s.execs ++ [boundExec s exec m]
              instanceExecId := wrapInt64 (s.instanceExecId + 1) },
            boundExec s exec m, none⟩ := by
  obtain ⟨m, hm, hmin, hrun⟩ := create_of_ne_nil ix s did exec hne
  have hkeep : s.execs.filter (fun r => r.Id != wrapInt64 (s.instanceExecId + 1))
      = s.execs := by
    rw [List.filter_eq_self]
    intro e he
    simpa using hfresh e he
  rw [hkeep] at hrun
  exact ⟨m, hm, hmin, hrun⟩

/-- C11 fails as stated in its general part: with the counter at `2^63 - 1` and a row of
instance `B` that holds the id `-2^63`, a create for deployment `d` succeeds on `I`, is given
the id `-2^63`, and the insert replaces the row of `B`: the listing of `B`, an instance
other than the selected one, goes from one row to none. And with the instance `a`, NUL, `b`
selected, the new session is also in the listing of the instance `a`, which is seeked by
initial segment of the key: that listing goes from no row to one. -/
theorem create_listing_counterexample :
    (InstanceExecCreateByDeployment latin1Indexers
        ⟨[⟨"I", "d"⟩, ⟨"B", "e"⟩], [⟨-9223372036854775808, "B", [], 0, 0, 0⟩],
          9223372036854775807⟩ "d" ⟨0, "", ["sh"], 7, 8, 0⟩).err = none
      ∧ (InstanceExecCreateByDeployment latin1Indexers
        ⟨[⟨"I", "d"⟩, ⟨"B", "e"⟩], [⟨-9223372036854775808, "B", [], 0, 0, 0⟩],
          9223372036854775807⟩ "d" ⟨0, "", ["sh"], 7, 8, 0⟩).exec.InstanceId = "I"
      ∧ toLower latin1Indexers "B" ≠ toLower latin1Indexers "I"
      ∧ sessionCount latin1Indexers
        ⟨[⟨"I", "d"⟩, ⟨"B", "e"⟩], [⟨-9223372036854775808, "B", [], 0, 0, 0⟩],
          9223372036854775807⟩ "B" = 1
      ∧ sessionCount latin1Indexers
        (InstanceExecCreateByDeployment latin1Indexers
          ⟨[⟨"I", "d"⟩, ⟨"B", "e"⟩], [⟨-9223372036854775808, "B", [], 0, 0, 0⟩],
            9223372036854775807⟩ "d" ⟨0, "", ["sh"], 7, 8, 0⟩).state "B" = 0
      ∧ (InstanceExecCreateByDeployment latin1Indexers
          ⟨[⟨"a\x00b", "d"⟩, ⟨"a", "e"⟩], [], 0⟩ "d" ⟨0, "", ["sh"], 7, 8, 0⟩).exec
        = ⟨1, "a\x00b", ["sh"], 7, 8, 0⟩
      ∧ toLower latin1Indexers "a" ≠ toLower latin1Indexers "a\x00b"
      ∧ sessionCount latin1Indexers ⟨[⟨"a\x00b", "d"⟩, ⟨"a", "e"⟩], [], 0⟩ "a" = 0
      ∧ sessionCount latin1Indexers
        (InstanceExecCreateByDeployment latin1Indexers
          ⟨[⟨"a\x00b", "d"⟩, ⟨"a", "e"⟩], [], 0⟩ "d" ⟨0, "", ["sh"], 7, 8, 0⟩).state "a" = 1 := by
  refine ⟨by decide, by decide, by decide, by decide, by decide, by decide, by decide,
    by decide, by decide⟩

/-- C11, amended. For a deployment whose only instance `inst` has zero sessions, two creates
one after the other both succeed, get distinct ids, are both bound to `inst`, and the
session count of `inst` is `2` afterwards. In general, a successful create whose new id no
stored row holds makes the listing of the selected instance grow by exactly the new record
and leaves as it was every listing whose key is no initial segment of the key of the new
record: among identifiers that, lower-cased, hold no NUL byte, the listing of every instance
with a case-insensitively different identifier. -/
theorem create_twice_and_listing (ix : Indexers) :
    (∀ (s : State) (did : String) (inst : Instance) (exec1 exec2 : InstanceExec),
        instancesOf s did = [inst] → sessionCount ix s inst.Id = 0 →
        (InstanceExecCreateByDeployment ix s did exec1).err = none
          ∧ (InstanceExecCreateByDeployment ix
              (InstanceExecCreateByDeployment ix s did exec1).state did exec2).err = none
          ∧ (InstanceExecCreateByDeployment ix s did exec1).exec.Id
              ≠ (InstanceExecCreateByDeployment ix
                  (InstanceExecCreateByDeployment ix s did exec1).state did exec2).exec.Id
          ∧ (InstanceExecCreateByDeployment ix s did exec1).exec.InstanceId = inst.Id
          ∧ (InstanceExecCreateByDeployment ix
              (InstanceExecCreateByDeployment ix s did exec1).state did exec2).exec.InstanceId
              = inst.Id
          ∧ sessionCount ix
              (InstanceExecCreateByDeployment ix
                (InstanceExecCreateByDeployment ix s did exec1).state did exec2).state inst.Id
              = 2)
      ∧ ∀ (s : State) (did : String) (exec : InstanceExec),
          (InstanceExecCreateByDeployment ix s did exec).err = none →
          (∀ e ∈ s.execs, e.Id ≠ wrapInt64 (s.instanceExecId + 1)) →
          (∃ rows rows', instanceExecListByInstanceId ix s
                (InstanceExecCreateByDeployment ix s did exec).exec.InstanceId = .ok rows
              ∧ instanceExecListByInstanceId ix (InstanceExecCreateByDeployment ix s did exec).state
                  (InstanceExecCreateByDeployment ix s did exec).exec.InstanceId = .ok rows'
              ∧ rows'.Perm ((InstanceExecCreateByDeployment ix s did exec).exec :: rows))
            ∧ sessionCount ix (InstanceExecCreateByDeployment ix s did exec).state
                (InstanceExecCreateByDeployment ix s did exec).exec.InstanceId
              = sessionCount ix s (InstanceExecCreateByDeployment ix s did exec).exec.InstanceId + 1
            ∧ (∀ y, seekMatches ix y (InstanceExecCreateByDeployment ix s did exec).exec = false →
                instanceExecListByInstanceId ix (InstanceExecCreateByDeployment ix s did exec).state y
                  = instanceExecListByInstanceId ix s y)
            ∧ ∀ y, 0 ∉ toLower ix y →
                0 ∉ toLower ix (InstanceExecCreateByDeployment ix s did exec).exec.InstanceId →
                toLower ix y ≠ toLower ix (InstanceExecCreateByDeployment ix s did exec).exec.InstanceId →
                instanceExecListByInstanceId ix (InstanceExecCreateByDeployment ix s did exec).state y
                  = instanceExecListByInstanceId ix s y := by
  constructor
  · intro s did inst exec1 exec2 honly h0
    have hne : instancesOf s did ≠ [] := by simp [honly]
    obtain ⟨m, hm, _, hrun⟩ := create_of_ne_nil ix s did exec1 hne
    rw [honly, List.mem_singleton] at hm
    subst hm
    rw [hrun]
    have hne2 : instancesOf
        { s with
          execs := s.execs.filter (fun r => r.Id != wrapInt64 (s.instanceExecId + 1))
            ++ [boundExec s exec1 m]
          instanceExecId := wrapInt64 (s.instanceExecId + 1) } did = [m] := honly
    obtain ⟨m2, hm2, _, hrun2⟩ := create_of_ne_nil ix _ did exec2 (by rw [hne2]; simp)
    rw [hne2, List.mem_singleton] at hm2
    subst hm2
    rw [hrun2]
    have hnone : ∀ e ∈ s.execs, seekMatches ix m2.Id e = false := by
      intro e he
      by_contra heq
      rw [sessionCount_eq] at h0
      have hmem : e ∈ s.execs.filter (fun e => seekMatches ix m2.Id e) :=
        List.mem_filter.mpr ⟨he, by simpa using heq⟩
      rw [List.eq_nil_of_length_eq_zero h0] at hmem
      simp at hmem
    have hbound : ∀ (st : State) (ex : InstanceExec),
        seekMatches ix m2.Id (boundExec st ex m2) = true :=
      fun st ex => seekMatches_self ix (boundExec st ex m2)
    have hw := wrapInt64_succ_ne_self s.instanceExecId
    refine ⟨rfl, rfl, ?_, rfl, rfl, ?_⟩
    · simp only [boundExec_Id]
      exact fun h => hw h.symm
    · rw [sessionCount_eq]
      simp only [List.filter_append, List.filter_filter, List.length_append]
      have h1 : (s.execs.filter (fun a =>
          seekMatches ix m2.Id a
            && ((a.Id != wrapInt64 (wrapInt64 (s.instanceExecId + 1) + 1))
              && (a.Id != wrapInt64 (s.instanceExecId + 1))))) = [] := by
        rw [List.filter_eq_nil_iff]
        intro e he
        simp [hnone e he]
      have hw' : wrapInt64 (s.instanceExecId + 1)
          ≠ wrapInt64 (wrapInt64 (s.instanceExecId + 1) + 1) := fun h => hw h.symm
      simp [h1, List.filter_cons, boundExec_Id, hw', hbound]
  · intro s did exec herr hfresh
    by_cases hnil : instancesOf s did = []
    · rw [create_of_nil ix s did exec hnil] at herr
      simp at herr
    · obtain ⟨m, _, _, hrun⟩ := create_of_fresh ix s did exec hnil hfresh
      rw [hrun]
      have hself : seekMatches ix (boundExec s exec m).InstanceId (boundExec s exec m) = true :=
        seekMatches_self ix _
      have hother : ∀ y, seekMatches ix y (boundExec s exec m) = false →
          instanceExecListByInstanceId ix
              { s with
                execs := s.execs ++ [boundExec s exec m]
                instanceExecId := wrapInt64 (s.instanceExecId + 1) } y
            = instanceExecListByInstanceId ix s y := by
        intro y hy
        rw [instanceExecListByInstanceId_eq, instanceExecListByInstanceId_eq]
        simp [List.filter_append, List.filter_cons, hy]
      refine ⟨⟨_, _, instanceExecListByInstanceId_eq ix s _,
        instanceExecListByInstanceId_eq ix _ _, ?_⟩, ?_, hother, ?_⟩
      · simp [List.filter_append, List.filter_cons, hself]
      · rw [sessionCount_append]
        simp [hself]
      · intro y hy hb hne
        apply hother
        by_contra hmatch
        exact hne ((seekMatches_iff ix y _ hy hb).mp (by simpa using hmatch)).symm

/-- C11 amended, on a deployment with the single idle instance `I` next to a busy instance
of another deployment: two creates get the ids `8` and `9`, both on `I`, whose session count
is then `2`. -/
theorem create_twice_and_listing_witness :
    (InstanceExecCreateByDeployment latin1Indexers ⟨[⟨"I", "d"⟩, ⟨"B", "e"⟩], [⟨7, "B", [], 0, 0, 0⟩], 7⟩ "d"
        ⟨0, "", ["a"], 7, 8, 0⟩).exec = ⟨8, "I", ["a"], 7, 8, 0⟩
      ∧ (InstanceExecCreateByDeployment latin1Indexers
          (InstanceExecCreateByDeployment latin1Indexers ⟨[⟨"I", "d"⟩, ⟨"B", "e"⟩], [⟨7, "B", [], 0, 0, 0⟩], 7⟩
            "d" ⟨0, "", ["a"], 7, 8, 0⟩).state "d" ⟨0, "", ["b"], 7, 8, 0⟩).exec
        = ⟨9, "I", ["b"], 7, 8, 0⟩
      ∧ sessionCount latin1Indexers
          (InstanceExecCreateByDeployment latin1Indexers
            (InstanceExecCreateByDeployment latin1Indexers
              ⟨[⟨"I", "d"⟩, ⟨"B", "e"⟩], [⟨7, "B", [], 0, 0, 0⟩], 7⟩
              "d" ⟨0, "", ["a"], 7, 8, 0⟩).state "d" ⟨0, "", ["b"], 7, 8, 0⟩).state "I" = 2 :=
  ⟨by decide, by decide,
    ((create_twice_and_listing latin1Indexers).1 ⟨[⟨"I", "d"⟩, ⟨"B", "e"⟩], [⟨7, "B", [], 0, 0, 0⟩], 7⟩ "d"
      ⟨"I", "d"⟩ ⟨0, "", ["a"], 7, 8, 0⟩ ⟨0, "", ["b"], 7, 8, 0⟩
      (by decide) (by decide)).2.2.2.2.2⟩

/-! ## Balance under creates (C16) -/

theorem sessionCount_congr (ix : Indexers) (s : State) (x y : String)
    (h : toLower ix x = toLower ix y) : sessionCount ix s x = sessionCount ix s y := by
  have hfun : (fun e => seekMatches ix x e) = (fun e => seekMatches ix y e) :=
    funext (fun e => seekMatches_congr ix x y e h)
  simp only [sessionCount_eq, hfun]

/-- Among instances with case-insensitively distinct identifiers, exactly one matches the
identifier of a given member. -/
theorem sum_bound_indicator (ix : Indexers) (D : List Instance) (m : Instance)
    (hD : D.Pairwise (fun a b => toLower ix a.Id ≠ toLower ix b.Id)) (hm : m ∈ D) :
    (D.map (fun a => if toLower ix m.Id = toLower ix a.Id then 1 else 0)).sum = 1 := by
  induction D with
  | nil => simp at hm
  | cons x rest ih =>
    rw [List.pairwise_cons] at hD
    have hzero : ∀ (l : List Instance) (k : List Nat), (∀ a ∈ l, k ≠ toLower ix a.Id) →
        (l.map (fun a => if k = toLower ix a.Id then 1 else 0)).sum = 0 := by
      intro l k
      induction l with
      | nil => simp
      | cons y l ihl =>
        intro hk
        have hy := hk y (by simp)
        simp only [List.map_cons, List.sum_cons, if_neg hy]
        rw [ihl (fun a ha => hk a (by simp [ha]))]
    rcases List.mem_cons.mp hm with h | h
    · subst h
      simp only [List.map_cons, List.sum_cons, if_true]
      rw [hzero rest (toLower ix m.Id) hD.1]
    · have hx : ¬ toLower ix m.Id = toLower ix x.Id := fun heq => hD.1 m h heq.symm
      simp only [List.map_cons, List.sum_cons, if_neg hx]
      rw [ih hD.2 h]

/-- Creates for one deployment on a table whose ids lie among the last `n` counter values:
as long as fewer than `2^64` rows result, every create succeeds, the session counts of the
deployment's instances stay within one of each other, and their sum grows by one a create. -/
theorem runOps_creates_balanced (ix : Indexers) (did : String) (D : List Instance)
    (hD : D.Pairwise (fun a b => toLower ix a.Id ≠ toLower ix b.Id)) (hne : D ≠ [])
    (hnul : ∀ a ∈ D, 0 ∉ toLower ix a.Id) (ts : List InstanceExec) :
    ∀ (s : State) (n : Nat), instancesOf s did = D →
    (∀ e ∈ s.execs, ∃ j : Nat, j < n ∧ e.Id = wrapInt64 (s.instanceExecId - j)) →
    n + ts.length ≤ 18446744073709551616 →
    (∀ a ∈ D, ∀ b ∈ D, sessionCount ix s a.Id ≤ sessionCount ix s b.Id + 1) →
    (runOps ix s (ts.map (Op.create did))).2.length = ts.length
      ∧ (∀ a ∈ D, ∀ b ∈ D,
          sessionCount ix (runOps ix s (ts.map (Op.create did))).1 a.Id
            ≤ sessionCount ix (runOps ix s (ts.map (Op.create did))).1 b.Id + 1)
      ∧ (D.map (fun a => sessionCount ix (runOps ix s (ts.map (Op.create did))).1 a.Id)).sum
          = (D.map (fun a => sessionCount ix s a.Id)).sum + ts.length := by
  induction ts with
  | nil =>
    intro s n _ _ _ hbal
    simpa [runOps] using hbal
  | cons t ts ih =>
    intro s n hinst hids hsize hbal
    simp only [List.length_cons] at hsize
    have hfresh : ∀ e ∈ s.execs, e.Id ≠ wrapInt64 (s.instanceExecId + 1) := by
      intro e he
      obtain ⟨j, hj, hej⟩ := hids e he
      rw [hej]
      exact wrapInt64_succ_ne s.instanceExecId j (by omega)
    obtain ⟨m, hm, hmin, hrun⟩ := create_of_fresh ix s did t (by rw [hinst]; exact hne) hfresh
    rw [hinst] at hm hmin
    have hstep : stepOp ix s (Op.create did t)
        = ({ s with
              execs := s.execs ++ [boundExec s t m]
              instanceExecId := wrapInt64 (s.instanceExecId + 1) },
            some (wrapInt64 (s.instanceExecId + 1))) := by
      simp only [stepOp, hrun]
      rfl
    simp only [List.map_cons, runOps, hstep]
    have hcount : ∀ a ∈ D, sessionCount ix
        { s with
          execs := s.execs ++ [boundExec s t m]
          instanceExecId := wrapInt64 (s.instanceExecId + 1) } a.Id
        = sessionCount ix s a.Id + (if toLower ix m.Id = toLower ix a.Id then 1 else 0) := by
      intro a ha
      rw [sessionCount_append]
      have hiff := seekMatches_iff ix a.Id (boundExec s t m) (hnul a ha) (hnul m hm)
      rw [boundExec_InstanceId] at hiff
      by_cases hma : toLower ix m.Id = toLower ix a.Id
      · rw [if_pos (hiff.mpr hma), if_pos hma]
      · rw [if_neg (fun h => hma (hiff.mp h)), if_neg hma]
    obtain ⟨h1, h2, h3⟩ := ih
      { s with
        execs := s.execs ++ [boundExec s t m]
        instanceExecId := wrapInt64 (s.instanceExecId + 1) } (n + 1) hinst
      (by
        intro e he
        rcases List.mem_append.mp he with h | h
        · obtain ⟨j, hj, hej⟩ := hids e h
          exact ⟨j + 1, by omega, by rw [hej]; exact (wrapInt64_shift _ j).symm⟩
        · rw [List.mem_singleton.mp h]
          exact ⟨0, by omega, (wrapInt64_idem _).symm⟩)
      (by omega)
      (by
        intro a ha b hb
        rw [hcount a ha, hcount b hb]
        by_cases hma : toLower ix m.Id = toLower ix a.Id
        · have hca := sessionCount_congr ix s m.Id a.Id hma
          have hmb := hmin b hb
          simp only [if_pos hma]
          split <;> omega
        · have hab := hbal a ha b hb
          simp only [if_neg hma]
          split <;> omega)
    refine ⟨by simp [h1], h2, ?_⟩
    rw [h3, List.map_congr_left hcount]
    simp only [List.sum_map_add, sum_bound_indicator ix D m hD hm, List.length_cons]
    omega

/-- C16 fails as stated: the instances `a` and `a`, NUL, `b` of deployment `d` have
identifiers that differ case-insensitively, and from an empty registry two creates put one
session on each; the listing of `a` is seeked by initial segment and holds both sessions, so
the session counts are `2` and `1` and sum to `3`, not to `2`. -/
theorem creates_balance_counterexample :
    instancesOf ⟨[⟨"a", "d"⟩, ⟨"a\x00b", "d"⟩], [], 0⟩ "d" = [⟨"a", "d"⟩, ⟨"a\x00b", "d"⟩]
      ∧ toLower latin1Indexers "a" ≠ toLower latin1Indexers "a\x00b"
      ∧ (runOps latin1Indexers ⟨[⟨"a", "d"⟩, ⟨"a\x00b", "d"⟩], [], 0⟩
          ([⟨0, "", ["x"], 7, 8, 0⟩, ⟨0, "", ["y"], 7, 8, 0⟩].map (Op.create "d"))).1.execs
        = [⟨1, "a", ["x"], 7, 8, 0⟩, ⟨2, "a\x00b", ["y"], 7, 8, 0⟩]
      ∧ ([(⟨"a", "d"⟩ : Instance), ⟨"a\x00b", "d"⟩].map
          (fun a => sessionCount latin1Indexers
            (runOps latin1Indexers ⟨[⟨"a", "d"⟩, ⟨"a\x00b", "d"⟩], [], 0⟩
              ([⟨0, "", ["x"], 7, 8, 0⟩, ⟨0, "", ["y"], 7, 8, 0⟩].map (Op.create "d"))).1 a.Id))
        = [2, 1] := by
  refine ⟨by decide, by decide, by decide, by decide⟩

/-- C16, amended: for a deployment with a non-empty set of instances whose identifiers are
pairwise distinct case-insensitively and, lower-cased, hold no NUL byte, from a registry
with no exec sessions, after `k` creates for the deployment and no delete (`k` up to `2^64`,
one create per template) every create has succeeded, the session counts of any two
instances of the deployment differ by at most `1`, and the counts sum to `k`. -/
theorem creates_keep_balance (ix : Indexers) (s : State) (did : String)
    (templates : List InstanceExec)
    (hempty : s.execs = [])
    (hne : instancesOf s did ≠ [])
    (hdistinct : (instancesOf s did).Pairwise (fun a b => toLower ix a.Id ≠ toLower ix b.Id))
    (hnul : ∀ a ∈ instancesOf s did, 0 ∉ toLower ix a.Id)
    (hsize : templates.length ≤ 18446744073709551616) :
    (runOps ix s (templates.map (Op.create did))).2.length = templates.length
      ∧ (∀ a ∈ instancesOf s did, ∀ b ∈ instancesOf s did,
          sessionCount ix (runOps ix s (templates.map (Op.create did))).1 a.Id
              ≤ sessionCount ix (runOps ix s (templates.map (Op.create did))).1 b.Id + 1
            ∧ sessionCount ix (runOps ix s (templates.map (Op.create did))).1 b.Id
              ≤ sessionCount ix (runOps ix s (templates.map (Op.create did))).1 a.Id + 1)
      ∧ ((instancesOf s did).map
          (fun a => sessionCount ix (runOps ix s (templates.map (Op.create did))).1 a.Id)).sum
          = templates.length := by
  have hzero : ∀ y, sessionCount ix s y = 0 := by
    intro y
    simp [sessionCount_eq, hempty]
  obtain ⟨h1, h2, h3⟩ := runOps_creates_balanced ix did (instancesOf s did) hdistinct hne hnul
    templates s 0 rfl (by simp [hempty]) (by omega)
    (by intro a _ b _; rw [hzero, hzero]; omega)
  refine ⟨h1, fun a ha b hb => ⟨h2 a ha b hb, h2 b hb a ha⟩, ?_⟩
  rw [h3]
  simp [hzero]

/-- C16 amended, at `k = 5` on the three instances `A`, `B`, `C`: the counts are `2`, `2`,
`1`. -/
theorem creates_keep_balance_witness :
    ((instancesOf ⟨[⟨"A", "d"⟩, ⟨"B", "d"⟩, ⟨"C", "d"⟩], [], 0⟩ "d").map
        (fun a => sessionCount latin1Indexers
          (runOps latin1Indexers ⟨[⟨"A", "d"⟩, ⟨"B", "d"⟩, ⟨"C", "d"⟩], [], 0⟩
            ((List.replicate 5 ⟨0, "", ["sh"], 7, 8, 0⟩).map (Op.create "d"))).1 a.Id))
      = [2, 2, 1]
    ∧ ((instancesOf ⟨[⟨"A", "d"⟩, ⟨"B", "d"⟩, ⟨"C", "d"⟩], [], 0⟩ "d").map
        (fun a => sessionCount latin1Indexers
          (runOps latin1Indexers ⟨[⟨"A", "d"⟩, ⟨"B", "d"⟩, ⟨"C", "d"⟩], [], 0⟩
            ((List.replicate 5 ⟨0, "", ["sh"], 7, 8, 0⟩).map (Op.create "d"))).1 a.Id)).sum
      = (List.replicate 5 (⟨0, "", ["sh"], 7, 8, 0⟩ : InstanceExec)).length :=
  ⟨by decide,
    (creates_keep_balance latin1Indexers ⟨[⟨"A", "d"⟩, ⟨"B", "d"⟩, ⟨"C", "d"⟩], [], 0⟩ "d"
      (List.replicate 5 ⟨0, "", ["sh"], 7, 8, 0⟩) rfl (by decide) (by decide) (by decide)
      (by decide)).2.2⟩

end Waypoint
